import Mathlib

/-!
Shallow embedding of `PyGeoStudio/Analysis.py`: the `TimeIncrements` property
container (XML read/write, timestep schedule construction and inspection) and
the `Analysis` container (geometry/context references, problem rendering
guard).

Modelling conventions, mirroring the Python source:

* Every XML attribute value and element text in Python is a string.  We split
  those strings into two constructors: `Attr.numStr q` stands for the decimal
  text produced by Python `str` applied to a number whose exact value is the
  rational `q` (such text is never empty, `float` parses it back to `q`, and
  `int` parses it exactly when `q` is an integer), while `Attr.str s` stands
  for any other literal string (on which Python `float`/`int` raise
  `ValueError`, e.g. `"true"`).
* The property store `self.data` is a Python `dict`; we model it as an
  association list with unique keys, insertion at the end, in-place update,
  ordered iteration -- exactly the Python 3.7+ `dict` semantics used by
  `read`/`__write__`.
* Mutating methods take the store and return `Except String Store`; an
  `.error` result models a raised Python exception, in which case the caller
  keeps the unmodified input store (the Python methods raise before any
  mutation in all modelled error paths).
* `numpy.argsort` is called with its default `kind` (quicksort/introsort),
  whose permutation on ties is implementation defined.  We therefore model it
  nondeterministically: `setTimeSteps` takes the index list `perm` as an
  explicit argument, and `IsArgsortOf perm l` states that `perm` is a
  permutation of the positions of `l` along which `l` is ascending -- the
  exact specification numpy gives for the result of `argsort` without a
  stability guarantee.
-/

namespace PyGeoStudio

/-- A Python string used as an XML attribute value or element text.
`numStr q` is the decimal text `str(x)` of a number `x` with exact value `q`;
`str s` is any other literal string. -/
inductive Attr where
  | str (s : String)
  | numStr (q : ℚ)
deriving DecidableEq, Repr

/-- Python truthiness of the string: every nonempty string is truthy, and the
`str` form of a float is never empty. -/
def pyTruthy : Attr → Bool
  | .str s => !s.isEmpty
  | .numStr _ => true

/-- Python `float(s)`: parses numeric text back to its value; raises
`ValueError` (here `none`) on non-numeric literals such as `"true"`. -/
def floatQ : Attr → Option ℚ
  | .str _ => none
  | .numStr q => some q

/-- Python `int(s)`: parses integer-valued decimal text only (`int("3.0")`
raises `ValueError` in Python, hence the denominator check). -/
def intAttr : Attr → Option ℤ
  | .str _ => none
  | .numStr q => if q.den = 1 then some q.num else none

/-- One timestep record: the attribute dict of a `<TimeStep>` element
(`dict(time.attrib)` in `read`, the dict literals in `setTimeSteps`). -/
abbrev Rec : Type := List (String × Attr)

/-- A value held in the `TimeIncrements` property store: either element text
(possibly `None`) stored by `read`/`setTimeSteps`, or the list of timestep
record dicts stored under the `"TimeSteps"` key. -/
inductive PVal where
  | text (v : Option Attr)
  | steps (l : List Rec)
deriving DecidableEq, Repr

/-- A Python dict modelled as an association list in insertion order. -/
abbrev Dict (α : Type) : Type := List (String × α)

/-- Dict lookup `d[k]` / `d.get(k)` (first, hence unique, binding). -/
def getV {α : Type} : Dict α → String → Option α
  | [], _ => none
  | p :: rest, k => if p.1 = k then some p.2 else getV rest k

/-- Dict membership test `k in d`. -/
def containsV {α : Type} (d : Dict α) (k : String) : Bool :=
  (getV d k).isSome

/-- Dict assignment `d[k] = v`: updates the first binding of `k` in place,
or appends a new binding -- Python dict insertion-order semantics. -/
def setV {α : Type} : Dict α → String → α → Dict α
  | [], k, v => [(k, v)]
  | p :: rest, k, v => if p.1 = k then (k, v) :: rest else p :: setV rest k v

/-- The `TimeIncrements` property store `self.data`. -/
abbrev Store : Type := Dict PVal

/-- A `<TimeStep>` child of the `<TimeSteps>` element: a tag plus its
attribute dict (only the attributes are read back). -/
structure XLeaf where
  tag : String
  attribs : Rec
deriving DecidableEq, Repr

/-- A child element of the `<TimeIncrements>` node: tag, text content,
attribute dict and grandchildren (the latter two only used for the
`TimeSteps` child). -/
structure XEl where
  tag : String
  text : Option Attr
  attribs : Rec
  children : List XLeaf
deriving DecidableEq, Repr

namespace TimeIncrements

/-- The declared kind of each schema property (`parameter_type` values in the
source: `float`, `str`, `int`, `list`).  None of them is the nested-entity
marker (Python `None`), so the nested-entity branch of `__write__` is dead
code for this class. -/
inductive PKind where
  | pFloat
  | pStr
  | pInt
  | pList
deriving DecidableEq, Repr

/-- `TimeIncrements.parameter_type` from the source. -/
def parameter_type : Dict PKind :=
  [("Start", .pFloat), ("Duration", .pFloat), ("IncrementOption", .pStr),
   ("IncrementCount", .pInt), ("InitialIncrementSize", .pFloat),
   ("SaveMultiplesOf", .pInt), ("TimeSteps", .pList)]

/-- One iteration of the loop in `TimeIncrements.read`: a `TimeSteps` child
requires an `int`-parseable `Len` attribute (`n = int(prop.attrib["Len"])`,
`n` itself unused), creates the record list if absent and appends every
grandchild's attribute dict; any other child stores its text under its tag. -/
def readEl (data : Store) (el : XEl) : Except String Store :=
  if el.tag = "TimeSteps" then
    match getV el.attribs "Len" with
    | none => .error "KeyError Len"
    | some a =>
      match intAttr a with
      | none => .error "ValueError invalid literal for int"
      | some _ =>
        match getV data "TimeSteps" with
        | some (.text _) => .error "AttributeError append"
        | some (.steps cur) =>
            .ok (setV data "TimeSteps" (.steps (cur ++ el.children.map XLeaf.attribs)))
        | none =>
            .ok (setV data "TimeSteps" (.steps (el.children.map XLeaf.attribs)))
  else
    .ok (setV data el.tag (.text el.text))

/-- `TimeIncrements.read`: fold `readEl` over the children of the node. -/
def read (data : Store) : List XEl → Except String Store
  | [] => .ok data
  | el :: rest =>
    match readEl data el with
    | .error e => .error e
    | .ok d => read d rest

/-- Element text emitted for a store value by the final branch of
`__write__` (`sub.text = val`).  The `steps` case is unreachable for stores
produced by `read`/`setTimeSteps`, which only put record lists under the
`"TimeSteps"` tag, handled by the previous branch. -/
def textOfPVal : PVal → Option Attr
  | .text v => v
  | .steps _ => none

/-- One iteration of the loop in `TimeIncrements.__write__`: the `TimeSteps`
entry becomes an element with a `Len` attribute equal to `str(len(list))` and
one `<TimeStep>` child per record; every other entry becomes an element
carrying the stored text.  (The nested-entity branch guarded by
`parameter_type[tag] is None` is dead code for this class, see `PKind`.) -/
def writeEntry (tag : String) (v : PVal) : XEl :=
  if tag = "TimeSteps" then
    match v with
    | .steps l =>
        ⟨tag, none, [("Len", Attr.numStr (l.length : ℚ))],
         l.map (fun r => ⟨"TimeStep", r⟩)⟩
    | .text t => ⟨tag, t, [], []⟩
  else
    ⟨tag, textOfPVal v, [], []⟩

/-- `TimeIncrements.__write__`: one child element per store entry, in store
(insertion) order. -/
def write (data : Store) : List XEl :=
  data.map (fun p => writeEntry p.1 p.2)

/-- The body of the list comprehension in `getSavedTimeStep`:
`[float(x["ElapsedTime"]) for x in l if x["Save"]]`.  Python evaluates the
condition first (raising `KeyError` when the record has no `Save` key) and
only then coerces `ElapsedTime`. -/
def savedLoop : List Rec → Except String (List ℚ)
  | [] => .ok []
  | r :: rs =>
    match getV r "Save" with
    | none => .error "KeyError Save"
    | some a =>
      if pyTruthy a then
        match getV r "ElapsedTime" with
        | none => .error "KeyError ElapsedTime"
        | some e =>
          match floatQ e with
          | none => .error "ValueError could not convert string to float"
          | some q =>
            match savedLoop rs with
            | .error err => .error err
            | .ok qs => .ok (q :: qs)
      else savedLoop rs

/-- `TimeIncrements.getSavedTimeStep`.  The store must hold a record list
under `"TimeSteps"` (`KeyError` when the key is absent, `TypeError` when the
stored value is not a list of dicts). -/
def getSavedTimeStep (data : Store) : Except String (List ℚ) :=
  match getV data "TimeSteps" with
  | none => .error "KeyError TimeSteps"
  | some (.text _) => .error "TypeError not a list of dicts"
  | some (.steps l) => savedLoop l

/-- The body of the list comprehension in `getTimeStep`:
`[float(x["ElapsedTime"]) for x in l]`. -/
def allLoop : List Rec → Except String (List ℚ)
  | [] => .ok []
  | r :: rs =>
    match getV r "ElapsedTime" with
    | none => .error "KeyError ElapsedTime"
    | some e =>
      match floatQ e with
      | none => .error "ValueError could not convert string to float"
      | some q =>
        match allLoop rs with
        | .error err => .error err
        | .ok qs => .ok (q :: qs)

/-- `TimeIncrements.getTimeStep`. -/
def getTimeStep (data : Store) : Except String (List ℚ) :=
  match getV data "TimeSteps" with
  | none => .error "KeyError TimeSteps"
  | some (.text _) => .error "TypeError not a list of dicts"
  | some (.steps l) => allLoop l

/-- `np.array(l)[perm]`: fancy indexing of the timestep array by the index
list returned by `argsort`.  (`getD` never falls back to its default when
`perm` is a valid argsort result.) -/
def applyPermQ (l : List ℚ) (perm : List ℕ) : List ℚ :=
  perm.map (fun i => l.getD i 0)

/-- `np.array(l)[perm]` for the boolean `saved` array. -/
def applyPermB (l : List Bool) (perm : List ℕ) : List Bool :=
  perm.map (fun i => l.getD i false)

/-- `perm` is a possible result of `np.argsort(l)` (default `kind`):
a permutation of the positions of `l` along which `l` is ascending.  numpy
documents no stability guarantee for the default quicksort, so ties admit
several valid permutations. -/
def IsArgsortOf (perm : List ℕ) (l : List ℚ) : Prop :=
  List.Perm perm (List.range l.length) ∧ List.Sorted (· ≤ ·) (applyPermQ l perm)

/-- One record built by `setTimeSteps`: `Step` is the delta to the previous
time (`prev` is the start time for the first record), and the `Save` key is
present with the string `"true"` exactly when the sorted `saved` flag is
true, omitted otherwise. -/
def mkRec (prev t : ℚ) (sv : Bool) : Rec :=
  [("Step", Attr.numStr (t - prev)), ("ElapsedTime", Attr.numStr t)] ++
    (if sv then [("Save", Attr.str "true")] else [])

/-- The record-building loop of `setTimeSteps` over the sorted
(time, saved) pairs, threading the previous time. -/
def buildRecs : ℚ → List (ℚ × Bool) → List Rec
  | _, [] => []
  | prev, p :: rest => mkRec prev p.1 p.2 :: buildRecs p.1 rest

/-- `TimeIncrements.setTimeSteps`, with the `argsort` result `perm` made
explicit (see `IsArgsortOf`).  Error paths, in source order: the size check
raises `ValueError` before anything else; `timesteps_[0]` raises `IndexError`
on an empty array; and when the `Start` property is present its stored value
is a string (or `None`), so `timesteps_[0] - start` raises `TypeError` --
the numeric default 0 is used only when `Start` is absent.  On success the
store gains `IncrementCount = str(len(timesteps))` and then the rebuilt
`TimeSteps` record list, in that order. -/
def setTimeSteps (data : Store) (timesteps : List ℚ) (saved : List Bool)
    (perm : List ℕ) : Except String Store :=
  if timesteps.length ≠ saved.length then
    .error "ValueError timestep and saved parameter must be of the same size"
  else
    match applyPermQ timesteps perm with
    | [] => .error "IndexError index 0 is out of bounds"
    | _ :: _ =>
      match getV data "Start" with
      | some _ => .error "TypeError unsupported operand types for minus"
      | none =>
        let pairs := (applyPermQ timesteps perm).zip (applyPermB saved perm)
        .ok (setV (setV data "IncrementCount"
              (.text (some (.numStr (timesteps.length : ℚ)))))
            "TimeSteps" (.steps (buildRecs 0 pairs)))

end TimeIncrements

/-- The geometry collaborator as consumed by `Analysis.setGeometry`: only its
stored identity `geom.data["ID"]` is used. -/
structure GeomObj where
  idVal : Attr
deriving DecidableEq, Repr

/-- The context collaborator, opaque to the modelled operations. -/
inductive CtxObj where
  | mk
deriving DecidableEq, Repr

/-- A value held in the `Analysis` property store: element text, a raw
attribute value copied from another store (`geom.data["ID"]`), or a
non-owning reference to a geometry or context collaborator. -/
inductive AVal where
  | text (v : Option Attr)
  | attr (a : Attr)
  | geomRef (g : GeomObj)
  | ctxRef (c : CtxObj)
deriving DecidableEq, Repr

namespace Analysis

/-- The declared kind of each `Analysis` schema property; `aNone` is the
polymorphic-reference marker (Python `None`). -/
inductive APKind where
  | aInt
  | aStr
  | aBool
  | aNone
  | aResults
  | aTimeIncrements
  | aDict
deriving DecidableEq, Repr

/-- `Analysis.parameter_type` from the source.  Note the spelling of the
denormalized geometry identity key: `"GeometryId"`. -/
def parameter_type : Dict APKind :=
  [("ID", .aInt), ("Name", .aStr), ("Kind", .aStr), ("Description", .aStr),
   ("ParentID", .aInt), ("Method", .aStr), ("GeometryId", .aInt),
   ("Geometry", .aNone), ("Context", .aNone),
   ("ExcludeInitDeformation", .aBool), ("Results", .aResults),
   ("TimeIncrements", .aTimeIncrements), ("ComputedPhysics", .aDict),
   ("PhysicsOptions", .aDict)]

/-- `Analysis.my_data` from the source. -/
def my_data : List String := ["Geometry", "Context", "Results"]

end Analysis

/-- The `Analysis` object: its property store `self.data`, plus the stray
instance attribute `self.context` that `setContext` assigns (an attribute of
the object, not an entry of the property store). -/
structure Analysis where
  data : Dict AVal
  context : Option CtxObj
deriving DecidableEq, Repr

/-- `Analysis.setGeometry`: stores the geometry reference under the
`"Geometry"` key and then assigns `self.data["GeometryID"] = geom.data["ID"]`
-- note the key it writes is spelled `"GeometryID"`, not the schema's
`"GeometryId"`. -/
def Analysis.setGeometry (a : Analysis) (geom : GeomObj) : Analysis :=
  { a with data := setV (setV a.data "Geometry" (.geomRef geom))
                     "GeometryID" (.attr geom.idVal) }

/-- `Analysis.setContext`: assigns `self.context = context`.  The property
store is left untouched -- in particular no `"Context"` entry is created. -/
def Analysis.setContext (a : Analysis) (c : CtxObj) : Analysis :=
  { a with context := some c }

/-- The control flow of `Analysis.showProblem` up to its core-relevant
contract: with no `"Geometry"` entry it prints a message and returns
normally; otherwise, after the external drawing call, a missing `"Context"`
entry raises `KeyError`; the remaining material lookup and plotting belong to
the external Geometry/Context collaborators and are modelled as a normal
return. -/
def Analysis.showProblem (a : Analysis) : Except String Unit :=
  match getV a.data "Geometry" with
  | none => .ok ()
  | some _ =>
    match getV a.data "Context" with
    | none => .error "KeyError Analysis not properly defined. Context is not available in data."
    | some _ => .ok ()

/-! Vocabulary used by the statements below: accessors over records, stores
and subtrees, and the predicates describing the states `read` accepts and
produces. -/

/-- The numeric value of a record field, as the claims compare it: the field
looked up and coerced with Python `float`. -/
def recQ (r : Rec) (k : String) : Option ℚ :=
  (getV r k).bind floatQ

/-- The numeric `ElapsedTime` of record `i` of a schedule (0 outside the
schedule or when the field is missing or non-numeric). -/
def elapsedD (l : List Rec) (i : ℕ) : ℚ :=
  (recQ (l.getD i []) "ElapsedTime").getD 0

/-- The observable content of a schedule record: its numeric `ElapsedTime`
and whether the `Save` key is present. -/
def recPair (r : Rec) : ℚ × Bool :=
  ((recQ r "ElapsedTime").getD 0, (getV r "Save").isSome)

/-- The start time as the spec describes it: the numeric value of the
`Start` scalar property, defaulting to 0 when unset. -/
def startOf (data : Store) : ℚ :=
  match getV data "Start" with
  | some (.text (some a)) => (floatQ a).getD 0
  | _ => 0

/-- The record list currently under the `"TimeSteps"` key ([] when absent). -/
def tsOf (s : Store) : List Rec :=
  match getV s "TimeSteps" with
  | some (.steps l) => l
  | _ => []

/-- The `"TimeSteps"` entry, if present, holds a record list (true of every
store `read` and `setTimeSteps` produce). -/
def TSok (s : Store) : Prop :=
  getV s "TimeSteps" = none ∨ ∃ l, getV s "TimeSteps" = some (PVal.steps l)

/-- A store entry is well shaped: a record list exactly under the
`"TimeSteps"` key, element text elsewhere. -/
def entryOK : String × PVal → Bool
  | (k, .steps _) => decide (k = "TimeSteps")
  | (k, .text _) => decide (k ≠ "TimeSteps")

/-- The subtree is accepted by `read`: every `TimeSteps` child carries an
`int`-parseable `Len` attribute (the only way `read` can fail). -/
def acceptedEls (els : List XEl) : Bool :=
  els.all (fun el =>
    if el.tag = "TimeSteps" then ((getV el.attribs "Len").bind intAttr).isSome else true)

/-- The subtree has at least one `TimeSteps` child. -/
def hasTS (els : List XEl) : Bool :=
  els.any (fun el => decide (el.tag = "TimeSteps"))

/-- All timestep records of the subtree, in document order: the concatenated
attribute dicts of the grandchildren of every `TimeSteps` child. -/
def recsOf (els : List XEl) : List Rec :=
  ((els.filter (fun el => decide (el.tag = "TimeSteps"))).map
    (fun el => el.children.map XLeaf.attribs)).flatten

/-- The store value `read` leaves under a non-`TimeSteps` key `k`: the text
of the last child tagged `k`, if any. -/
def lastTextOf (els : List XEl) (k : String) : Option PVal :=
  ((els.filter (fun el => decide (el.tag = k))).getLast?).map
    (fun el => PVal.text el.text)

/-- First-defined choice on options (used to state how a second `read` falls
back to the value already in the store). -/
def orE {α : Type} : Option α → Option α → Option α
  | some a, _ => some a
  | none, b => b

/-! Dictionary lemmas. -/

theorem getV_setV_self {α : Type} (s : Dict α) (k : String) (v : α) :
    getV (setV s k v) k = some v := by
  induction s with
  | nil => simp [setV, getV]
  | cons p rest ih =>
    by_cases h : p.1 = k
    · simp [setV, h, getV]
    · simp [setV, h, getV, ih]

theorem getV_setV_other {α : Type} (s : Dict α) {k j : String} (v : α)
    (hjk : j ≠ k) : getV (setV s k v) j = getV s j := by
  induction s with
  | nil =>
    simp only [setV, getV]
    rw [if_neg (fun hc => hjk hc.symm)]
  | cons p rest ih =>
    by_cases h : p.1 = k
    · simp only [setV, if_pos h, getV]
      rw [if_neg (fun hc => hjk hc.symm), if_neg (fun hc => hjk (h.symm.trans hc).symm)]
    · simp only [setV, if_neg h, getV]
      by_cases h2 : p.1 = j
      · rw [if_pos h2, if_pos h2]
      · rw [if_neg h2, if_neg h2]
        exact ih

theorem getV_none_iff {α : Type} (s : Dict α) (k : String) :
    getV s k = none ↔ k ∉ s.map Prod.fst := by
  induction s with
  | nil => simp [getV]
  | cons p rest ih =>
    by_cases h : p.1 = k
    · simp only [getV, if_pos h, List.map_cons, List.mem_cons]
      constructor
      · intro hc
        exact absurd hc (by simp)
      · intro hc
        exact (hc (Or.inl h.symm)).elim
    · simp only [getV, if_neg h, List.map_cons, List.mem_cons, ih]
      constructor
      · intro hn hc
        rcases hc with hc | hc
        · exact h hc.symm
        · exact hn hc
      · intro hn hc
        exact hn (Or.inr hc)

theorem keys_setV {α : Type} (s : Dict α) (k : String) (v : α) :
    (setV s k v).map Prod.fst =
      if (getV s k).isSome then s.map Prod.fst else s.map Prod.fst ++ [k] := by
  induction s with
  | nil => simp [setV, getV]
  | cons p rest ih =>
    by_cases h : p.1 = k
    · simp [setV, h, getV]
    · simp only [setV, if_neg h, List.map_cons, getV, ih]
      by_cases h2 : (getV rest k).isSome
      · simp [h2]
      · simp [h2]

theorem nodup_keys_setV {α : Type} {s : Dict α} (k : String) (v : α)
    (h : (s.map Prod.fst).Nodup) : ((setV s k v).map Prod.fst).Nodup := by
  rw [keys_setV]
  split
  · exact h
  · next hnone =>
    have hk : k ∉ s.map Prod.fst := by
      rw [← getV_none_iff]
      exact Option.not_isSome_iff_eq_none.mp hnone
    simp [List.nodup_append, h, hk]

theorem mem_setV {α : Type} {s : Dict α} {k : String} {v : α} {p : String × α}
    (h : p ∈ setV s k v) : p ∈ s ∨ p = (k, v) := by
  induction s with
  | nil => simp [setV] at h; simp [h]
  | cons q rest ih =>
    by_cases hq : q.1 = k
    · simp [setV, hq] at h
      rcases h with h | h
      · right; simp [h]
      · left; simp [h]
    · simp [setV, hq] at h
      rcases h with h | h
      · left; simp [h]
      · rcases ih h with h2 | h2
        · left; simp [h2]
        · right; exact h2

/-! Record and schedule-construction lemmas. -/

theorem getV_mkRec_step (prev t : ℚ) (sv : Bool) :
    getV (TimeIncrements.mkRec prev t sv) "Step" = some (Attr.numStr (t - prev)) := by
  cases sv <;> rfl

theorem getV_mkRec_elapsed (prev t : ℚ) (sv : Bool) :
    getV (TimeIncrements.mkRec prev t sv) "ElapsedTime" = some (Attr.numStr t) := by
  cases sv <;> rfl

theorem getV_mkRec_save (prev t : ℚ) (sv : Bool) :
    getV (TimeIncrements.mkRec prev t sv) "Save" =
      if sv then some (Attr.str "true") else none := by
  cases sv <;> rfl

theorem recQ_mkRec_step (prev t : ℚ) (sv : Bool) :
    recQ (TimeIncrements.mkRec prev t sv) "Step" = some (t - prev) := by
  simp [recQ, getV_mkRec_step, floatQ]

theorem recQ_mkRec_elapsed (prev t : ℚ) (sv : Bool) :
    recQ (TimeIncrements.mkRec prev t sv) "ElapsedTime" = some t := by
  simp [recQ, getV_mkRec_elapsed, floatQ]

theorem recPair_mkRec (prev t : ℚ) (sv : Bool) :
    recPair (TimeIncrements.mkRec prev t sv) = (t, sv) := by
  cases sv <;> simp [recPair, recQ_mkRec_elapsed, getV_mkRec_save]

theorem length_buildRecs (prev : ℚ) (pairs : List (ℚ × Bool)) :
    (TimeIncrements.buildRecs prev pairs).length = pairs.length := by
  induction pairs generalizing prev with
  | nil => rfl
  | cons p rest ih => simp [TimeIncrements.buildRecs, ih]

theorem map_recPair_buildRecs (prev : ℚ) (pairs : List (ℚ × Bool)) :
    (TimeIncrements.buildRecs prev pairs).map recPair = pairs := by
  induction pairs generalizing prev with
  | nil => rfl
  | cons p rest ih => simp [TimeIncrements.buildRecs, recPair_mkRec, ih]

theorem allLoop_buildRecs (prev : ℚ) (pairs : List (ℚ × Bool)) :
    TimeIncrements.allLoop (TimeIncrements.buildRecs prev pairs) =
      .ok (pairs.map Prod.fst) := by
  induction pairs generalizing prev with
  | nil => rfl
  | cons p rest ih =>
    simp [TimeIncrements.buildRecs, TimeIncrements.allLoop,
      getV_mkRec_elapsed, floatQ, ih]

/-- Inversion of a successful `setTimeSteps` call: the two length and
start-time guards passed and the result store is the input store updated
with `IncrementCount` and the rebuilt schedule. -/
theorem setTimeSteps_ok_inv {data : Store} {ts : List ℚ} {saved : List Bool}
    {perm : List ℕ} {D : Store}
    (h : TimeIncrements.setTimeSteps data ts saved perm = .ok D) :
    ts.length = saved.length ∧ getV data "Start" = none ∧
      TimeIncrements.applyPermQ ts perm ≠ [] ∧
      D = setV (setV data "IncrementCount"
            (PVal.text (some (Attr.numStr (ts.length : ℚ)))))
          "TimeSteps" (PVal.steps (TimeIncrements.buildRecs 0
            ((TimeIncrements.applyPermQ ts perm).zip
              (TimeIncrements.applyPermB saved perm)))) := by
  unfold TimeIncrements.setTimeSteps at h
  split at h
  · exact absurd h (by simp)
  · next hlen =>
    split at h
    · exact absurd h (by simp)
    · next a l heq =>
      split at h
      · exact absurd h (by simp)
      · next hstart =>
        refine ⟨by omega, hstart, by rw [heq]; simp, ?_⟩
        simpa using h.symm

/-- Claim C1: with `Start` unset, `setTimeSteps([5, 2, 10], [False, True,
True])` (argsort permutation `[1, 0, 2]`, the unique ascending arrangement)
produces exactly the three claimed records and `IncrementCount = 3`, and
`getTimeStep` afterwards returns `[2, 5, 10]` -- but `getSavedTimeStep` does
not return `[2, 10]`: it raises `KeyError`, because the middle record, not
being saved, has no `Save` key and the comprehension condition `x["Save"]`
indexes it unconditionally. -/
theorem C1_scenario_eval :
    TimeIncrements.IsArgsortOf [1, 0, 2] [5, 2, 10] ∧
    TimeIncrements.setTimeSteps [] [5, 2, 10] [false, true, true] [1, 0, 2] =
      .ok [("IncrementCount", PVal.text (some (Attr.numStr 3))),
           ("TimeSteps", PVal.steps
             [[("Step", Attr.numStr 2), ("ElapsedTime", Attr.numStr 2),
               ("Save", Attr.str "true")],
              [("Step", Attr.numStr 3), ("ElapsedTime", Attr.numStr 5)],
              [("Step", Attr.numStr 5), ("ElapsedTime", Attr.numStr 10),
               ("Save", Attr.str "true")]])] ∧
    TimeIncrements.getTimeStep
      [("IncrementCount", PVal.text (some (Attr.numStr 3))),
       ("TimeSteps", PVal.steps
         [[("Step", Attr.numStr 2), ("ElapsedTime", Attr.numStr 2),
           ("Save", Attr.str "true")],
          [("Step", Attr.numStr 3), ("ElapsedTime", Attr.numStr 5)],
          [("Step", Attr.numStr 5), ("ElapsedTime", Attr.numStr 10),
           ("Save", Attr.str "true")]])] = .ok [2, 5, 10] ∧
    TimeIncrements.getSavedTimeStep
      [("IncrementCount", PVal.text (some (Attr.numStr 3))),
       ("TimeSteps", PVal.steps
         [[("Step", Attr.numStr 2), ("ElapsedTime", Attr.numStr 2),
           ("Save", Attr.str "true")],
          [("Step", Attr.numStr 3), ("ElapsedTime", Attr.numStr 5)],
          [("Step", Attr.numStr 5), ("ElapsedTime", Attr.numStr 10),
           ("Save", Attr.str "true")]])] = .error "KeyError Save" := by
  refine ⟨⟨by decide, by with_unfolding_all decide⟩, ?_, ?_, ?_⟩
  · with_unfolding_all rfl
  · with_unfolding_all rfl
  · with_unfolding_all rfl

/-- Claim C2: `getSavedTimeStep` evaluated on schedules the claim covers.
On a schedule whose second record lacks the `Save` key it raises `KeyError`
instead of skipping the record, and a record whose `Save` value is the
boolean-false text `"false"` is included (every nonempty string is truthy in
Python), contradicting both the skip-missing and exclude-false parts of the
claim. -/
theorem C2_getSavedTimeStep_eval :
    TimeIncrements.getSavedTimeStep [("TimeSteps", PVal.steps
      [[("Step", Attr.numStr 2), ("ElapsedTime", Attr.numStr 2),
        ("Save", Attr.str "true")],
       [("Step", Attr.numStr 3), ("ElapsedTime", Attr.numStr 5)]])] =
      .error "KeyError Save" ∧
    TimeIncrements.getSavedTimeStep [("TimeSteps", PVal.steps
      [[("Step", Attr.numStr 1), ("ElapsedTime", Attr.numStr 1),
        ("Save", Attr.str "false")]])] = .ok [1] := by
  constructor
  · with_unfolding_all rfl
  · with_unfolding_all rfl

/-- Claim C5: `setTimeSteps` called with differently-sized `timesteps` and
`saved` raises the size-mismatch `ValueError`; the check is the first
statement of the method, before any store mutation, so the property store
(in particular any prior schedule and `IncrementCount`) is unchanged -- in
this embedding a mutating method returns the new store, and an `.error`
result leaves the caller with the untouched input store. -/
theorem C5_size_mismatch (data : Store) (ts : List ℚ) (saved : List Bool)
    (perm : List ℕ) (h : ts.length ≠ saved.length) :
    TimeIncrements.setTimeSteps data ts saved perm =
      .error "ValueError timestep and saved parameter must be of the same size" := by
  unfold TimeIncrements.setTimeSteps
  simp [h]

/-- Witness for C5 at the spec's own example `buildSchedule([1.0, 2.0],
[True])` against a store holding a prior schedule. -/
theorem C5_size_mismatch_witness :
    ([1, 2] : List ℚ).length ≠ ([true] : List Bool).length ∧
    TimeIncrements.setTimeSteps
      [("TimeSteps", PVal.steps [[("Step", Attr.numStr 1),
        ("ElapsedTime", Attr.numStr 1)]])] [1, 2] [true] [0, 1] =
      .error "ValueError timestep and saved parameter must be of the same size" :=
  ⟨by decide,
   C5_size_mismatch [("TimeSteps", PVal.steps [[("Step", Attr.numStr 1),
     ("ElapsedTime", Attr.numStr 1)]])] [1, 2] [true] [0, 1] (by decide)⟩

/-! Schedule access and permutation lemmas. -/

theorem elapsedD_cons_zero (r : Rec) (l : List Rec) :
    elapsedD (r :: l) 0 = (recQ r "ElapsedTime").getD 0 := by
  simp [elapsedD]

theorem elapsedD_cons_succ (r : Rec) (l : List Rec) (n : ℕ) :
    elapsedD (r :: l) (n + 1) = elapsedD l n := by
  simp [elapsedD]

/-- The step-delta law holds for every schedule `buildRecs` constructs,
relative to the previous time `prev` threaded in for the first record. -/
theorem buildRecs_delta (pairs : List (ℚ × Bool)) :
    ∀ (prev : ℚ) (i : ℕ), i < pairs.length →
    recQ ((TimeIncrements.buildRecs prev pairs).getD i []) "Step" =
      some (elapsedD (TimeIncrements.buildRecs prev pairs) i -
        (if i = 0 then prev
         else elapsedD (TimeIncrements.buildRecs prev pairs) (i - 1))) := by
  induction pairs with
  | nil => intro prev i hi; simp at hi
  | cons p rest ih =>
    intro prev i hi
    cases i with
    | zero =>
      simp [TimeIncrements.buildRecs, recQ_mkRec_step, elapsedD_cons_zero,
        recQ_mkRec_elapsed]
    | succ n =>
      have hlen : n < rest.length := by
        simpa using Nat.lt_of_succ_lt_succ hi
      have ihn := ih p.1 n hlen
      simp only [TimeIncrements.buildRecs, List.getD_cons_succ,
        elapsedD_cons_succ]
      rw [if_neg (Nat.succ_ne_zero n)]
      cases n with
      | zero =>
        rw [ihn]
        simp [elapsedD_cons_zero, recQ_mkRec_elapsed]
      | succ m =>
        rw [ihn]
        simp [elapsedD_cons_succ]

theorem length_applyPermQ (l : List ℚ) (perm : List ℕ) :
    (TimeIncrements.applyPermQ l perm).length = perm.length := by
  simp [TimeIncrements.applyPermQ]

theorem length_applyPermB (l : List Bool) (perm : List ℕ) :
    (TimeIncrements.applyPermB l perm).length = perm.length := by
  simp [TimeIncrements.applyPermB]

theorem map_getD_range {α : Type} (l : List α) (d : α) :
    (List.range l.length).map (fun i => l.getD i d) = l := by
  apply List.ext_getElem
  · simp
  · intro i h1 h2
    simp [List.getD_eq_getElem?_getD, List.getElem?_eq_getElem h2]

/-- Indexing by a permutation of the positions permutes the list. -/
theorem applyPermQ_perm {l : List ℚ} {perm : List ℕ}
    (hp : List.Perm perm (List.range l.length)) :
    List.Perm (TimeIncrements.applyPermQ l perm) l := by
  have h := hp.map (fun i => l.getD i 0)
  rwa [map_getD_range] at h

theorem map_getD_range_zip {ts : List ℚ} {saved : List Bool}
    (hlen : ts.length = saved.length) :
    (List.range ts.length).map (fun i => (ts.getD i 0, saved.getD i false)) =
      ts.zip saved := by
  apply List.ext_getElem
  · simp [hlen]
  · intro i h1 h2
    have hits : i < ts.length := by simpa using lt_of_lt_of_le h2 (by simp [hlen])
    have hisv : i < saved.length := by omega
    simp [List.getElem_zip, List.getD_eq_getElem?_getD,
      List.getElem?_eq_getElem, hits, hisv]

/-- The common permutation applied to both arrays permutes the zipped
(time, saved) pairs. -/
theorem zip_applyPerm_perm {ts : List ℚ} {saved : List Bool} {perm : List ℕ}
    (hlen : ts.length = saved.length)
    (hp : List.Perm perm (List.range ts.length)) :
    List.Perm ((TimeIncrements.applyPermQ ts perm).zip
      (TimeIncrements.applyPermB saved perm)) (ts.zip saved) := by
  have hzip : (TimeIncrements.applyPermQ ts perm).zip
      (TimeIncrements.applyPermB saved perm) =
      perm.map (fun i => (ts.getD i 0, saved.getD i false)) := by
    simp [TimeIncrements.applyPermQ, TimeIncrements.applyPermB, List.zip_map']
  rw [hzip, ← map_getD_range_zip hlen]
  exact hp.map (fun i => (ts.getD i 0, saved.getD i false))

theorem map_fst_zip_applyPerm (ts : List ℚ) (saved : List Bool)
    (perm : List ℕ) :
    ((TimeIncrements.applyPermQ ts perm).zip
      (TimeIncrements.applyPermB saved perm)).map Prod.fst =
      TimeIncrements.applyPermQ ts perm := by
  apply List.map_fst_zip
  simp [length_applyPermQ, length_applyPermB]

theorem startOf_of_none {data : Store} (h : getV data "Start" = none) :
    startOf data = 0 := by
  simp [startOf, h]

/-- Claim C3: after any successful `setTimeSteps` call, every record's
`Step` equals its `ElapsedTime` minus the previous record's `ElapsedTime`
(the start time for the first record), where the start time defaults to 0
when the `Start` property is unset and otherwise is the numeric value of the
stored `Start` scalar.  (A call with `Start` present cannot succeed: the
stored value is text and the subtraction raises `TypeError`, so every
successful call uses the default 0 = `startOf data`.) -/
theorem C3_step_delta_law {data : Store} {ts : List ℚ} {saved : List Bool}
    {perm : List ℕ} {D : Store}
    (h : TimeIncrements.setTimeSteps data ts saved perm = .ok D) :
    ∃ recs : List Rec, getV D "TimeSteps" = some (PVal.steps recs) ∧
      ∀ i : ℕ, i < recs.length →
        recQ (recs.getD i []) "Step" =
          some (elapsedD recs i -
            (if i = 0 then startOf data else elapsedD recs (i - 1))) := by
  obtain ⟨hlen, hstart, hne, hD⟩ := setTimeSteps_ok_inv h
  refine ⟨_, by rw [hD]; exact getV_setV_self _ _ _, ?_⟩
  intro i hi
  rw [startOf_of_none hstart]
  exact buildRecs_delta _ 0 i (by rwa [length_buildRecs] at hi)

/-- Witness for C3 at the spec scenario (`Start` unset, times `[5, 2, 10]`,
saved `[False, True, True]`, argsort permutation `[1, 0, 2]`). -/
theorem C3_step_delta_law_witness :
    TimeIncrements.setTimeSteps [] [5, 2, 10] [false, true, true] [1, 0, 2] =
      .ok [("IncrementCount", PVal.text (some (Attr.numStr 3))),
           ("TimeSteps", PVal.steps
             [[("Step", Attr.numStr 2), ("ElapsedTime", Attr.numStr 2),
               ("Save", Attr.str "true")],
              [("Step", Attr.numStr 3), ("ElapsedTime", Attr.numStr 5)],
              [("Step", Attr.numStr 5), ("ElapsedTime", Attr.numStr 10),
               ("Save", Attr.str "true")]])] ∧
    (∃ recs : List Rec,
      getV [("IncrementCount", PVal.text (some (Attr.numStr 3))),
           ("TimeSteps", PVal.steps
             [[("Step", Attr.numStr 2), ("ElapsedTime", Attr.numStr 2),
               ("Save", Attr.str "true")],
              [("Step", Attr.numStr 3), ("ElapsedTime", Attr.numStr 5)],
              [("Step", Attr.numStr 5), ("ElapsedTime", Attr.numStr 10),
               ("Save", Attr.str "true")]])] "TimeSteps" =
        some (PVal.steps recs) ∧
      ∀ i : ℕ, i < recs.length →
        recQ (recs.getD i []) "Step" =
          some (elapsedD recs i -
            (if i = 0 then startOf ([] : Store)
             else elapsedD recs (i - 1)))) :=
  ⟨by with_unfolding_all rfl,
   @C3_step_delta_law [] [5, 2, 10] [false, true, true] [1, 0, 2]
     [("IncrementCount", PVal.text (some (Attr.numStr 3))),
      ("TimeSteps", PVal.steps
        [[("Step", Attr.numStr 2), ("ElapsedTime", Attr.numStr 2),
          ("Save", Attr.str "true")],
         [("Step", Attr.numStr 3), ("ElapsedTime", Attr.numStr 5)],
         [("Step", Attr.numStr 5), ("ElapsedTime", Attr.numStr 10),
          ("Save", Attr.str "true")]])]
     (by with_unfolding_all rfl)⟩

/-- Counterexample to claim C4 as stated: for the equal-length pair
`times = []`, `saved = []` (empty argsort permutation), `setTimeSteps` does
not install the empty schedule -- it raises `IndexError` on `timesteps_[0]`
-- and a subsequent `getTimeStep()` on the untouched empty store raises
`KeyError` rather than returning the sorted (empty) list of times. -/
theorem C4_empty_counterexample :
    TimeIncrements.IsArgsortOf [] [] ∧
    TimeIncrements.setTimeSteps [] ([] : List ℚ) [] [] =
      .error "IndexError index 0 is out of bounds" ∧
    TimeIncrements.getTimeStep [] = .error "KeyError TimeSteps" := by
  refine ⟨⟨by decide, by decide⟩, by with_unfolding_all rfl, by with_unfolding_all rfl⟩

/-- Claim C4 (amended): whenever `setTimeSteps(times, saved)` completes
successfully -- it raises `IndexError` on empty input -- a subsequent
`getTimeStep()` returns exactly the elements of `times` sorted ascending,
one output element per input element, for every valid argsort permutation
of the input. -/
theorem C4_sorted_after_success {data : Store} {ts : List ℚ}
    {saved : List Bool} {perm : List ℕ} {D : Store}
    (hperm : TimeIncrements.IsArgsortOf perm ts)
    (h : TimeIncrements.setTimeSteps data ts saved perm = .ok D) :
    ∃ out : List ℚ, TimeIncrements.getTimeStep D = .ok out ∧
      List.Perm out ts ∧ List.Sorted (· ≤ ·) out := by
  obtain ⟨hlen, hstart, hne, hD⟩ := setTimeSteps_ok_inv h
  refine ⟨TimeIncrements.applyPermQ ts perm, ?_, applyPermQ_perm hperm.1, hperm.2⟩
  rw [hD]
  simp only [TimeIncrements.getTimeStep, getV_setV_self]
  rw [allLoop_buildRecs, map_fst_zip_applyPerm]

/-- Witness for the amended C4 at times `[5, 2, 10]`. -/
theorem C4_sorted_after_success_witness :
    TimeIncrements.IsArgsortOf [1, 0, 2] [5, 2, 10] ∧
    TimeIncrements.setTimeSteps [] [5, 2, 10] [false, true, true] [1, 0, 2] =
      .ok [("IncrementCount", PVal.text (some (Attr.numStr 3))),
           ("TimeSteps", PVal.steps
             [[("Step", Attr.numStr 2), ("ElapsedTime", Attr.numStr 2),
               ("Save", Attr.str "true")],
              [("Step", Attr.numStr 3), ("ElapsedTime", Attr.numStr 5)],
              [("Step", Attr.numStr 5), ("ElapsedTime", Attr.numStr 10),
               ("Save", Attr.str "true")]])] ∧
    (∃ out : List ℚ,
      TimeIncrements.getTimeStep
        [("IncrementCount", PVal.text (some (Attr.numStr 3))),
         ("TimeSteps", PVal.steps
           [[("Step", Attr.numStr 2), ("ElapsedTime", Attr.numStr 2),
             ("Save", Attr.str "true")],
            [("Step", Attr.numStr 3), ("ElapsedTime", Attr.numStr 5)],
            [("Step", Attr.numStr 5), ("ElapsedTime", Attr.numStr 10),
             ("Save", Attr.str "true")]])] = .ok out ∧
      List.Perm out [5, 2, 10] ∧ List.Sorted (· ≤ ·) out) :=
  ⟨⟨by decide, by with_unfolding_all decide⟩, by with_unfolding_all rfl,
   @C4_sorted_after_success [] [5, 2, 10] [false, true, true] [1, 0, 2]
     [("IncrementCount", PVal.text (some (Attr.numStr 3))),
      ("TimeSteps", PVal.steps
        [[("Step", Attr.numStr 2), ("ElapsedTime", Attr.numStr 2),
          ("Save", Attr.str "true")],
         [("Step", Attr.numStr 3), ("ElapsedTime", Attr.numStr 5)],
         [("Step", Attr.numStr 5), ("ElapsedTime", Attr.numStr 10),
          ("Save", Attr.str "true")]])]
     ⟨by decide, by with_unfolding_all decide⟩ (by with_unfolding_all rfl)⟩

/-- Counterexample to claim C6 as stated: `times = [1, 1]`,
`saved = [True, False]`.  The index list `[1, 0]` is a valid result of
`np.argsort([1, 1])` under its default unstable quicksort, and with it the
two equal-`ElapsedTime` records come out with the unsaved record first --
the reverse of their original relative input order, with the `Save` flag of
the first input time attached to the second record. -/
theorem C6_unstable_counterexample :
    TimeIncrements.IsArgsortOf [1, 0] [1, 1] ∧
    TimeIncrements.setTimeSteps [] [1, 1] [true, false] [1, 0] =
      .ok [("IncrementCount", PVal.text (some (Attr.numStr 2))),
           ("TimeSteps", PVal.steps
             [[("Step", Attr.numStr 1), ("ElapsedTime", Attr.numStr 1)],
              [("Step", Attr.numStr 0), ("ElapsedTime", Attr.numStr 1),
               ("Save", Attr.str "true")]])] ∧
    [[("Step", Attr.numStr 1), ("ElapsedTime", Attr.numStr 1)],
     [("Step", Attr.numStr 0), ("ElapsedTime", Attr.numStr 1),
      ("Save", Attr.str "true")]].map recPair = [(1, false), (1, true)] ∧
    ([(1, false), (1, true)] : List (ℚ × Bool)) ≠ [(1, true), (1, false)] := by
  refine ⟨⟨by decide, by with_unfolding_all decide⟩, by with_unfolding_all rfl,
    by with_unfolding_all rfl, by with_unfolding_all decide⟩

/-- Claim C6 (amended): `setTimeSteps` applies one common permutation -- a
valid argsort result -- to both `timesteps` and `saved`, so the rebuilt
records carry exactly the input (time, saved) pairs rearranged into
ascending time order; but the relative order of records with equal
`ElapsedTime` is implementation-defined (`np.argsort` is called with its
default non-stable quicksort), not necessarily the original input order. -/
theorem C6_common_permutation {data : Store} {ts : List ℚ}
    {saved : List Bool} {perm : List ℕ} {D : Store}
    (hperm : TimeIncrements.IsArgsortOf perm ts)
    (h : TimeIncrements.setTimeSteps data ts saved perm = .ok D) :
    ∃ recs : List Rec, getV D "TimeSteps" = some (PVal.steps recs) ∧
      recs.map recPair = (TimeIncrements.applyPermQ ts perm).zip
        (TimeIncrements.applyPermB saved perm) ∧
      List.Perm (recs.map recPair) (ts.zip saved) ∧
      List.Sorted (· ≤ ·) ((recs.map recPair).map Prod.fst) := by
  obtain ⟨hlen, hstart, hne, hD⟩ := setTimeSteps_ok_inv h
  refine ⟨_, by rw [hD]; exact getV_setV_self _ _ _, map_recPair_buildRecs _ _, ?_, ?_⟩
  · rw [map_recPair_buildRecs]
    exact zip_applyPerm_perm hlen hperm.1
  · rw [map_recPair_buildRecs, map_fst_zip_applyPerm]
    exact hperm.2

/-- Witness for the amended C6 at the tie input `[1, 1]` with the valid
argsort permutation `[1, 0]`. -/
theorem C6_common_permutation_witness :
    TimeIncrements.IsArgsortOf [1, 0] [1, 1] ∧
    (∃ recs : List Rec,
      getV [("IncrementCount", PVal.text (some (Attr.numStr 2))),
            ("TimeSteps", PVal.steps
              [[("Step", Attr.numStr 1), ("ElapsedTime", Attr.numStr 1)],
               [("Step", Attr.numStr 0), ("ElapsedTime", Attr.numStr 1),
                ("Save", Attr.str "true")]])] "TimeSteps" =
        some (PVal.steps recs) ∧
      recs.map recPair = (TimeIncrements.applyPermQ [1, 1] [1, 0]).zip
        (TimeIncrements.applyPermB [true, false] [1, 0]) ∧
      List.Perm (recs.map recPair) ([1, 1].zip [true, false]) ∧
      List.Sorted (· ≤ ·) ((recs.map recPair).map Prod.fst)) :=
  ⟨⟨by decide, by with_unfolding_all decide⟩,
   @C6_common_permutation [] [1, 1] [true, false] [1, 0]
     [("IncrementCount", PVal.text (some (Attr.numStr 2))),
      ("TimeSteps", PVal.steps
        [[("Step", Attr.numStr 1), ("ElapsedTime", Attr.numStr 1)],
         [("Step", Attr.numStr 0), ("ElapsedTime", Attr.numStr 1),
          ("Save", Attr.str "true")]])]
     ⟨by decide, by with_unfolding_all decide⟩ (by with_unfolding_all rfl)⟩

/-! Option-choice and store-shape lemmas. -/

theorem orE_none_right {α : Type} (a : Option α) : orE a none = a := by
  cases a <;> rfl

theorem orE_absorb {α : Type} (a : Option α) (b : α) (c : Option α) :
    orE (orE a (some b)) c = orE a (some b) := by
  cases a <;> rfl

theorem orE_self {α : Type} (a : Option α) : orE a a = a := by
  cases a <;> rfl

theorem getLast?_cons_orE {α : Type} (x : α) (xs : List α) :
    (x :: xs).getLast? = orE xs.getLast? (some x) := by
  cases xs with
  | nil => rfl
  | cons y ys =>
    cases hz : (y :: ys).getLast? with
    | none => simp at hz
    | some z => rw [List.getLast?_cons_cons, hz]; rfl

theorem getV_mem {α : Type} {s : Dict α} {k : String} {v : α}
    (h : getV s k = some v) : (k, v) ∈ s := by
  induction s with
  | nil => simp [getV] at h
  | cons p rest ih =>
    by_cases hp : p.1 = k
    · simp only [getV, if_pos hp, Option.some.injEq] at h
      have h2 : (k, v) = p := by
        obtain ⟨a, b⟩ := p
        simp only [Prod.mk.injEq]
        exact ⟨hp.symm, h.symm⟩
      exact List.mem_cons.mpr (Or.inl h2)
    · simp only [getV, if_neg hp] at h
      exact List.mem_cons_of_mem _ (ih h)

theorem tsOf_nil : tsOf [] = [] := rfl

theorem TSok_nil : TSok [] := Or.inl rfl

theorem tsOf_setV_steps (s : Store) (l : List Rec) :
    tsOf (setV s "TimeSteps" (PVal.steps l)) = l := by
  simp [tsOf, getV_setV_self]

theorem TSok_setV_steps (s : Store) (l : List Rec) :
    TSok (setV s "TimeSteps" (PVal.steps l)) :=
  Or.inr ⟨l, getV_setV_self _ _ _⟩

theorem tsOf_setV_other {s : Store} {k : String} (v : PVal)
    (h : k ≠ "TimeSteps") : tsOf (setV s k v) = tsOf s := by
  simp [tsOf, getV_setV_other s v (Ne.symm h)]

theorem TSok_setV_other {s : Store} {k : String} (v : PVal)
    (h : k ≠ "TimeSteps") (hts : TSok s) : TSok (setV s k v) := by
  unfold TSok at hts ⊢
  rw [getV_setV_other s v (Ne.symm h)]
  exact hts

theorem containsV_setV_other {s : Store} {k j : String} (v : PVal)
    (h : j ≠ k) : containsV (setV s k v) j = containsV s j := by
  simp [containsV, getV_setV_other s v h]

theorem allOK_TSok {s : Store} (hOK : ∀ p ∈ s, entryOK p) : TSok s := by
  cases hg : getV s "TimeSteps" with
  | none => exact Or.inl hg
  | some v =>
    cases v with
    | steps l => exact Or.inr ⟨l, hg⟩
    | text t =>
      have := hOK _ (getV_mem hg)
      simp [entryOK] at this

/-! Subtree-accessor lemmas. -/

theorem hasTS_cons_ts {el : XEl} (rest : List XEl) (h : el.tag = "TimeSteps") :
    hasTS (el :: rest) = true := by
  simp [hasTS, h]

theorem hasTS_cons_other {el : XEl} (rest : List XEl)
    (h : el.tag ≠ "TimeSteps") : hasTS (el :: rest) = hasTS rest := by
  simp [hasTS, h]

theorem recsOf_cons_ts {el : XEl} (rest : List XEl) (h : el.tag = "TimeSteps") :
    recsOf (el :: rest) = el.children.map XLeaf.attribs ++ recsOf rest := by
  simp [recsOf, h]

theorem recsOf_cons_other {el : XEl} (rest : List XEl)
    (h : el.tag ≠ "TimeSteps") : recsOf (el :: rest) = recsOf rest := by
  simp [recsOf, h]

theorem recsOf_of_no_ts {els : List XEl} (h : hasTS els = false) :
    recsOf els = [] := by
  induction els with
  | nil => rfl
  | cons el rest ih =>
    by_cases htag : el.tag = "TimeSteps"
    · rw [hasTS_cons_ts rest htag] at h
      exact absurd h (by simp)
    · rw [hasTS_cons_other rest htag] at h
      rw [recsOf_cons_other rest htag, ih h]

theorem lastTextOf_cons_other {el : XEl} (rest : List XEl) {k : String}
    (h : el.tag ≠ k) : lastTextOf (el :: rest) k = lastTextOf rest k := by
  simp [lastTextOf, h]

theorem lastTextOf_cons_self {el : XEl} (rest : List XEl) {k : String}
    (h : el.tag = k) :
    lastTextOf (el :: rest) k =
      orE (lastTextOf rest k) (some (PVal.text el.text)) := by
  unfold lastTextOf
  rw [List.filter_cons_of_pos (by simp [h]), getLast?_cons_orE]
  cases (rest.filter (fun e => decide (e.tag = k))).getLast? <;> rfl

/-! Behavior of one `read` iteration. -/

theorem readEl_ok_plain (data : Store) {el : XEl} (h : el.tag ≠ "TimeSteps") :
    TimeIncrements.readEl data el = .ok (setV data el.tag (.text el.text)) := by
  simp [TimeIncrements.readEl, h]

theorem readEl_ok_ts (data : Store) {el : XEl} (htag : el.tag = "TimeSteps")
    (hlen : ((getV el.attribs "Len").bind intAttr).isSome = true)
    (hts : TSok data) :
    TimeIncrements.readEl data el =
      .ok (setV data "TimeSteps"
        (.steps (tsOf data ++ el.children.map XLeaf.attribs))) := by
  unfold TimeIncrements.readEl
  rw [if_pos htag]
  cases hLa : getV el.attribs "Len" with
  | none => simp [hLa] at hlen
  | some a =>
    cases hIa : intAttr a with
    | none => simp [hLa, hIa] at hlen
    | some n =>
      rcases hts with hnone | ⟨l, hsteps⟩
      · simp [hLa, hIa, hnone, tsOf]
      · simp [hLa, hIa, hsteps, tsOf]

theorem readEl_ok_ts_inv {data d : Store} {el : XEl}
    (h : TimeIncrements.readEl data el = .ok d) (htag : el.tag = "TimeSteps") :
    ((getV el.attribs "Len").bind intAttr).isSome = true := by
  unfold TimeIncrements.readEl at h
  rw [if_pos htag] at h
  cases hLa : getV el.attribs "Len" with
  | none => simp only [hLa] at h; exact Except.noConfusion h
  | some a =>
    cases hIa : intAttr a with
    | none => simp only [hLa, hIa] at h; exact Except.noConfusion h
    | some n => simp [hLa, hIa]

/-! `read` over a whole subtree: acceptance, totality on accepted input, and
what ends up under each key. -/

theorem read_accepts : ∀ {els : List XEl} {S S' : Store},
    TimeIncrements.read S els = .ok S' → acceptedEls els = true := by
  intro els
  induction els with
  | nil => intro S S' _; rfl
  | cons el rest ih =>
    intro S S' h
    cases hre : TimeIncrements.readEl S el with
    | error e =>
      rw [TimeIncrements.read, hre] at h
      exact absurd h (by simp)
    | ok d =>
      rw [TimeIncrements.read, hre] at h
      have hrest := ih h
      simp only [acceptedEls, List.all_cons, Bool.and_eq_true] at hrest ⊢
      refine ⟨?_, hrest⟩
      by_cases htag : el.tag = "TimeSteps"
      · simp [htag, readEl_ok_ts_inv hre htag]
      · simp [htag]

theorem read_ok : ∀ {els : List XEl} {S : Store},
    acceptedEls els = true → TSok S →
    ∃ S', TimeIncrements.read S els = .ok S' := by
  intro els
  induction els with
  | nil => intro S _ _; exact ⟨S, rfl⟩
  | cons el rest ih =>
    intro S hacc hts
    simp only [acceptedEls, List.all_cons, Bool.and_eq_true] at hacc
    by_cases htag : el.tag = "TimeSteps"
    · have hlen : ((getV el.attribs "Len").bind intAttr).isSome = true := by
        have := hacc.1
        simpa [htag] using this
      obtain ⟨S', hS'⟩ := ih hacc.2 (TSok_setV_steps S
        (tsOf S ++ el.children.map XLeaf.attribs))
      exact ⟨S', by rw [TimeIncrements.read, readEl_ok_ts S htag hlen hts]; exact hS'⟩
    · obtain ⟨S', hS'⟩ := ih hacc.2 (TSok_setV_other _ htag hts)
      exact ⟨S', by rw [TimeIncrements.read, readEl_ok_plain S htag]; exact hS'⟩

theorem read_ts_char : ∀ {els : List XEl} {S S' : Store},
    TimeIncrements.read S els = .ok S' → TSok S →
    (getV S' "TimeSteps" =
      (if (hasTS els || containsV S "TimeSteps") = true
       then some (PVal.steps (tsOf S ++ recsOf els)) else none)) ∧ TSok S' := by
  intro els
  induction els with
  | nil =>
    intro S S' h hts
    have hS : S = S' := by simpa [TimeIncrements.read] using h
    subst hS
    refine ⟨?_, hts⟩
    rcases hts with hnone | ⟨l, hsteps⟩
    · simp [hasTS, containsV, hnone, recsOf]
    · simp [hasTS, containsV, hsteps, recsOf, tsOf]
  | cons el rest ih =>
    intro S S' h hts
    by_cases htag : el.tag = "TimeSteps"
    · have hlen : ((getV el.attribs "Len").bind intAttr).isSome = true := by
        cases hre : TimeIncrements.readEl S el with
        | error e => rw [TimeIncrements.read, hre] at h; exact absurd h (by simp)
        | ok d => exact readEl_ok_ts_inv hre htag
      rw [TimeIncrements.read, readEl_ok_ts S htag hlen hts] at h
      obtain ⟨hch, hok⟩ := ih h (TSok_setV_steps _ _)
      refine ⟨?_, hok⟩
      rw [hch]
      rw [hasTS_cons_ts rest htag, recsOf_cons_ts rest htag]
      have hcont : containsV (setV S "TimeSteps"
          (PVal.steps (tsOf S ++ el.children.map XLeaf.attribs))) "TimeSteps" = true := by
        simp [containsV, getV_setV_self]
      rw [hcont, tsOf_setV_steps]
      simp [List.append_assoc]
    · rw [TimeIncrements.read, readEl_ok_plain S htag] at h
      obtain ⟨hch, hok⟩ := ih h (TSok_setV_other _ htag hts)
      refine ⟨?_, hok⟩
      rw [hch]
      rw [hasTS_cons_other rest htag, recsOf_cons_other rest htag,
        containsV_setV_other _ (Ne.symm htag), tsOf_setV_other _ htag]

theorem readEl_ok_ts_shape {data d : Store} {el : XEl}
    (h : TimeIncrements.readEl data el = .ok d) (htag : el.tag = "TimeSteps") :
    ∃ l : List Rec, d = setV data "TimeSteps" (PVal.steps l) := by
  unfold TimeIncrements.readEl at h
  rw [if_pos htag] at h
  cases hLa : getV el.attribs "Len" with
  | none => simp only [hLa] at h; exact Except.noConfusion h
  | some a =>
    cases hIa : intAttr a with
    | none => simp only [hLa, hIa] at h; exact Except.noConfusion h
    | some n =>
      cases hg : getV data "TimeSteps" with
      | none =>
        simp only [hLa, hIa, hg, Except.ok.injEq] at h
        exact ⟨_, h.symm⟩
      | some v =>
        cases v with
        | text t =>
          simp only [hLa, hIa, hg] at h
          exact Except.noConfusion h
        | steps cur =>
          simp only [hLa, hIa, hg, Except.ok.injEq] at h
          exact ⟨_, h.symm⟩

theorem read_other_char : ∀ {els : List XEl} {S S' : Store},
    TimeIncrements.read S els = .ok S' → ∀ k : String, k ≠ "TimeSteps" →
    getV S' k = orE (lastTextOf els k) (getV S k) := by
  intro els
  induction els with
  | nil =>
    intro S S' h k _
    have hS : S = S' := by simpa [TimeIncrements.read] using h
    subst hS
    simp [lastTextOf, orE]
  | cons el rest ih =>
    intro S S' h k hk
    cases hre : TimeIncrements.readEl S el with
    | error e =>
      rw [TimeIncrements.read, hre] at h
      exact absurd h (by simp)
    | ok d =>
      rw [TimeIncrements.read, hre] at h
      have hrest := ih h k hk
      by_cases htag : el.tag = "TimeSteps"
      · obtain ⟨l, hd⟩ := readEl_ok_ts_shape hre htag
        rw [lastTextOf_cons_other rest (by rw [htag]; exact Ne.symm hk)]
        rw [hrest, hd, getV_setV_other S _ hk]
      · have hd : d = setV S el.tag (.text el.text) := by
          rw [readEl_ok_plain S htag] at hre
          simpa using hre.symm
        by_cases ht2 : el.tag = k
        · rw [lastTextOf_cons_self rest ht2]
          rw [orE_absorb, hrest, hd, ht2, getV_setV_self]
        · rw [lastTextOf_cons_other rest ht2]
          rw [hrest, hd, getV_setV_other S _ (fun hc => ht2 hc.symm)]

/-- `read` from a store with unique, well-shaped keys yields a store with
unique, well-shaped keys (in particular any store `read` builds from an
empty container). -/
theorem read_inv_store : ∀ {els : List XEl} {S S' : Store},
    TimeIncrements.read S els = .ok S' →
    (S.map Prod.fst).Nodup ∧ (∀ p ∈ S, entryOK p) →
    (S'.map Prod.fst).Nodup ∧ (∀ p ∈ S', entryOK p) := by
  intro els
  induction els with
  | nil =>
    intro S S' h hInv
    have hS : S = S' := by simpa [TimeIncrements.read] using h
    exact hS ▸ hInv
  | cons el rest ih =>
    intro S S' h hInv
    cases hre : TimeIncrements.readEl S el with
    | error e =>
      rw [TimeIncrements.read, hre] at h
      exact absurd h (by simp)
    | ok d =>
      rw [TimeIncrements.read, hre] at h
      refine ih h ?_
      by_cases htag : el.tag = "TimeSteps"
      · obtain ⟨l, hd⟩ := readEl_ok_ts_shape hre htag
        subst hd
        refine ⟨nodup_keys_setV _ _ hInv.1, ?_⟩
        intro p hp
        rcases mem_setV hp with hmem | hpe
        · exact hInv.2 p hmem
        · simp [hpe, entryOK]
      · have hd : d = setV S el.tag (.text el.text) := by
          rw [readEl_ok_plain S htag] at hre
          simpa using hre.symm
        subst hd
        refine ⟨nodup_keys_setV _ _ hInv.1, ?_⟩
        intro p hp
        rcases mem_setV hp with hmem | hpe
        · exact hInv.2 p hmem
        · simp [hpe, entryOK, htag]

/-! `__write__` output shape. -/

theorem tag_writeEntry (k : String) (v : PVal) :
    (TimeIncrements.writeEntry k v).tag = k := by
  by_cases h : k = "TimeSteps"
  · cases v <;> simp [TimeIncrements.writeEntry, h]
  · simp [TimeIncrements.writeEntry, h]

theorem write_cons (p : String × PVal) (rest : Store) :
    TimeIncrements.write (p :: rest) =
      TimeIncrements.writeEntry p.1 p.2 :: TimeIncrements.write rest := rfl

theorem hasTS_write (D : Store) :
    hasTS (TimeIncrements.write D) = containsV D "TimeSteps" := by
  induction D with
  | nil => rfl
  | cons p rest ih =>
    rw [write_cons]
    by_cases h : p.1 = "TimeSteps"
    · rw [hasTS_cons_ts _ (by rw [tag_writeEntry]; exact h)]
      simp [containsV, getV, h]
    · rw [hasTS_cons_other _ (by rw [tag_writeEntry]; exact h), ih]
      simp [containsV, getV, h]

theorem acceptedEls_write : ∀ {D : Store}, (∀ p ∈ D, entryOK p) →
    acceptedEls (TimeIncrements.write D) = true := by
  intro D
  induction D with
  | nil => intro _; rfl
  | cons p rest ih =>
    obtain ⟨k0, v0⟩ := p
    intro hOK
    have hp := hOK (k0, v0) (List.mem_cons_self _ _)
    have hrest := ih (fun q hq => hOK q (List.mem_cons_of_mem _ hq))
    rw [write_cons]
    simp only [acceptedEls, List.all_cons, Bool.and_eq_true] at hrest ⊢
    refine ⟨?_, hrest⟩
    by_cases h : k0 = "TimeSteps"
    · cases v0 with
      | text t => simp [entryOK, h] at hp
      | steps l => simp [TimeIncrements.writeEntry, h, getV, intAttr]
    · simp [tag_writeEntry, h]

theorem recsOf_write : ∀ {D : Store}, (D.map Prod.fst).Nodup →
    (∀ p ∈ D, entryOK p) → recsOf (TimeIncrements.write D) = tsOf D := by
  intro D
  induction D with
  | nil => intro _ _; rfl
  | cons p rest ih =>
    obtain ⟨k0, v0⟩ := p
    intro hnd hOK
    have hp := hOK (k0, v0) (List.mem_cons_self _ _)
    have hndr : (rest.map Prod.fst).Nodup := (List.nodup_cons.mp hnd).2
    have hOKr := fun q hq => hOK q (List.mem_cons_of_mem _ hq)
    rw [write_cons]
    by_cases h : k0 = "TimeSteps"
    · cases v0 with
      | text t => simp [entryOK, h] at hp
      | steps l =>
        have hnmem : "TimeSteps" ∉ rest.map Prod.fst := by
          rw [← h]
          exact (List.nodup_cons.mp hnd).1
        have hnone : containsV rest "TimeSteps" = false := by
          simp [containsV, (getV_none_iff rest "TimeSteps").mpr hnmem]
        have hrest0 : recsOf (TimeIncrements.write rest) = [] := by
          apply recsOf_of_no_ts
          rw [hasTS_write, hnone]
        rw [recsOf_cons_ts _ (by rw [tag_writeEntry]; exact h), hrest0]
        simp [TimeIncrements.writeEntry, h, tsOf, getV, List.map_map,
          Function.comp_def]
    · rw [recsOf_cons_other _ (by rw [tag_writeEntry]; exact h), ih hndr hOKr]
      simp [tsOf, getV, h]

theorem lastTextOf_write : ∀ {D : Store}, (D.map Prod.fst).Nodup →
    (∀ p ∈ D, entryOK p) → ∀ k : String, k ≠ "TimeSteps" →
    lastTextOf (TimeIncrements.write D) k = getV D k := by
  intro D
  induction D with
  | nil => intro _ _ k _; rfl
  | cons p rest ih =>
    obtain ⟨k0, v0⟩ := p
    intro hnd hOK k hk
    have hp := hOK (k0, v0) (List.mem_cons_self _ _)
    have hndr : (rest.map Prod.fst).Nodup := (List.nodup_cons.mp hnd).2
    have hOKr := fun q hq => hOK q (List.mem_cons_of_mem _ hq)
    rw [write_cons]
    by_cases h : k0 = k
    · cases v0 with
      | steps l =>
        simp only [entryOK] at hp
        rw [h] at hp
        simp [hk] at hp
      | text t =>
        have hknmem : k ∉ rest.map Prod.fst := by
          rw [← h]
          exact (List.nodup_cons.mp hnd).1
        have hrest0 : lastTextOf (TimeIncrements.write rest) k = none := by
          rw [ih hndr hOKr k hk]
          exact (getV_none_iff rest k).mpr hknmem
        have htagk : (TimeIncrements.writeEntry k0 (PVal.text t)).tag = k := by
          rw [tag_writeEntry]; exact h
        have hpts : k0 ≠ "TimeSteps" := by rw [h]; exact hk
        rw [lastTextOf_cons_self _ htagk, hrest0]
        simp [TimeIncrements.writeEntry, hpts, TimeIncrements.textOfPVal,
          getV, h, orE]
    · rw [lastTextOf_cons_other _ (by rw [tag_writeEntry]; exact h),
        ih hndr hOKr k hk]
      simp [getV, h]

/-- Claim C7: for any subtree `read` accepts into an empty container,
writing that container with `__write__` and reading the written node into a
new empty container reproduces the property store key for key and value for
value (here: the two stores agree on every lookup, including the
`TimeSteps` record list). -/
theorem C7_roundtrip {els : List XEl} {D : Store}
    (h : TimeIncrements.read [] els = .ok D) :
    ∃ D2 : Store, TimeIncrements.read [] (TimeIncrements.write D) = .ok D2 ∧
      ∀ k : String, getV D2 k = getV D k := by
  obtain ⟨hnd, hOK⟩ := read_inv_store h ⟨List.nodup_nil, by simp⟩
  have hts := allOK_TSok hOK
  obtain ⟨D2, h2⟩ := read_ok (acceptedEls_write hOK) TSok_nil
  refine ⟨D2, h2, ?_⟩
  intro k
  by_cases hk : k = "TimeSteps"
  · subst hk
    rw [(read_ts_char h2 TSok_nil).1, hasTS_write, recsOf_write hnd hOK]
    rcases hts with hnone | ⟨l, hsteps⟩
    · simp [containsV, hnone, getV]
    · simp [containsV, hsteps, getV, tsOf]
  · rw [read_other_char h2 k hk, lastTextOf_write hnd hOK k hk]
    cases getV D k <;> rfl

/-- Witness for C7 on a subtree holding one scalar child and one
`TimeSteps` child with two records. -/
theorem C7_roundtrip_witness :
    TimeIncrements.read []
      [⟨"Duration", some (Attr.numStr 10), [], []⟩,
       ⟨"TimeSteps", none, [("Len", Attr.numStr 2)],
         [⟨"TimeStep", [("ElapsedTime", Attr.numStr 1), ("Save", Attr.str "true")]⟩,
          ⟨"TimeStep", [("ElapsedTime", Attr.numStr 2)]⟩]⟩] =
      .ok [("Duration", PVal.text (some (Attr.numStr 10))),
           ("TimeSteps", PVal.steps
             [[("ElapsedTime", Attr.numStr 1), ("Save", Attr.str "true")],
              [("ElapsedTime", Attr.numStr 2)]])] ∧
    (∃ D2 : Store,
      TimeIncrements.read [] (TimeIncrements.write
        [("Duration", PVal.text (some (Attr.numStr 10))),
         ("TimeSteps", PVal.steps
           [[("ElapsedTime", Attr.numStr 1), ("Save", Attr.str "true")],
            [("ElapsedTime", Attr.numStr 2)]])]) = .ok D2 ∧
      ∀ k : String, getV D2 k =
        getV [("Duration", PVal.text (some (Attr.numStr 10))),
              ("TimeSteps", PVal.steps
                [[("ElapsedTime", Attr.numStr 1), ("Save", Attr.str "true")],
                 [("ElapsedTime", Attr.numStr 2)]])] k) :=
  ⟨by with_unfolding_all rfl,
   @C7_roundtrip
     [⟨"Duration", some (Attr.numStr 10), [], []⟩,
      ⟨"TimeSteps", none, [("Len", Attr.numStr 2)],
        [⟨"TimeStep", [("ElapsedTime", Attr.numStr 1), ("Save", Attr.str "true")]⟩,
         ⟨"TimeStep", [("ElapsedTime", Attr.numStr 2)]⟩]⟩]
     [("Duration", PVal.text (some (Attr.numStr 10))),
      ("TimeSteps", PVal.steps
        [[("ElapsedTime", Attr.numStr 1), ("Save", Attr.str "true")],
         [("ElapsedTime", Attr.numStr 2)]])]
     (by with_unfolding_all rfl)⟩

/-- Claim C10: `read` appends rather than replaces the record list.  Reading
a subtree with a `TimeSteps` child into an empty container and then reading
the same subtree again into the resulting container yields a `TimeSteps`
list holding every record of the subtree twice, while every non-`TimeSteps`
property keeps the value the first read gave it (it is overwritten with the
same text). -/
theorem C10_read_appends {els : List XEl} {D : Store}
    (hhas : hasTS els = true) (h : TimeIncrements.read [] els = .ok D) :
    ∃ D2 : Store, TimeIncrements.read D els = .ok D2 ∧
      getV D2 "TimeSteps" = some (PVal.steps (recsOf els ++ recsOf els)) ∧
      ∀ k : String, k ≠ "TimeSteps" → getV D2 k = getV D k := by
  obtain ⟨hch1, hTSokD⟩ := read_ts_char h TSok_nil
  have hDts : getV D "TimeSteps" = some (PVal.steps (recsOf els)) := by
    rw [hch1]
    simp [hhas, containsV, getV, tsOf]
  obtain ⟨D2, h2⟩ := read_ok (read_accepts h) hTSokD
  obtain ⟨hch2, _⟩ := read_ts_char h2 hTSokD
  refine ⟨D2, h2, ?_, ?_⟩
  · rw [hch2]
    simp [hhas, tsOf, hDts]
  · intro k hk
    have hD2k := read_other_char h2 k hk
    have hDk := read_other_char h k hk
    rw [show getV ([] : Store) k = none from rfl, orE_none_right] at hDk
    rw [hD2k, hDk]
    exact orE_self _

/-- Witness for C10 on a subtree with one `TimeSteps` child (one record)
and one scalar child. -/
theorem C10_read_appends_witness :
    hasTS [⟨"Duration", some (Attr.numStr 10), [], []⟩,
       ⟨"TimeSteps", none, [("Len", Attr.numStr 1)],
         [⟨"TimeStep", [("ElapsedTime", Attr.numStr 1)]⟩]⟩] = true ∧
    TimeIncrements.read []
      [⟨"Duration", some (Attr.numStr 10), [], []⟩,
       ⟨"TimeSteps", none, [("Len", Attr.numStr 1)],
         [⟨"TimeStep", [("ElapsedTime", Attr.numStr 1)]⟩]⟩] =
      .ok [("Duration", PVal.text (some (Attr.numStr 10))),
           ("TimeSteps", PVal.steps [[("ElapsedTime", Attr.numStr 1)]])] ∧
    (∃ D2 : Store,
      TimeIncrements.read
        [("Duration", PVal.text (some (Attr.numStr 10))),
         ("TimeSteps", PVal.steps [[("ElapsedTime", Attr.numStr 1)]])]
        [⟨"Duration", some (Attr.numStr 10), [], []⟩,
         ⟨"TimeSteps", none, [("Len", Attr.numStr 1)],
           [⟨"TimeStep", [("ElapsedTime", Attr.numStr 1)]⟩]⟩] = .ok D2 ∧
      getV D2 "TimeSteps" = some (PVal.steps
        (recsOf [⟨"Duration", some (Attr.numStr 10), [], []⟩,
           ⟨"TimeSteps", none, [("Len", Attr.numStr 1)],
             [⟨"TimeStep", [("ElapsedTime", Attr.numStr 1)]⟩]⟩] ++
         recsOf [⟨"Duration", some (Attr.numStr 10), [], []⟩,
           ⟨"TimeSteps", none, [("Len", Attr.numStr 1)],
             [⟨"TimeStep", [("ElapsedTime", Attr.numStr 1)]⟩]⟩])) ∧
      ∀ k : String, k ≠ "TimeSteps" →
        getV D2 k = getV [("Duration", PVal.text (some (Attr.numStr 10))),
          ("TimeSteps", PVal.steps [[("ElapsedTime", Attr.numStr 1)]])] k) :=
  ⟨by decide, by with_unfolding_all rfl,
   @C10_read_appends
     [⟨"Duration", some (Attr.numStr 10), [], []⟩,
      ⟨"TimeSteps", none, [("Len", Attr.numStr 1)],
        [⟨"TimeStep", [("ElapsedTime", Attr.numStr 1)]⟩]⟩]
     [("Duration", PVal.text (some (Attr.numStr 10))),
      ("TimeSteps", PVal.steps [[("ElapsedTime", Attr.numStr 1)]])]
     (by decide) (by with_unfolding_all rfl)⟩

/-- Claim C8: `setGeometry` evaluated on an empty analysis and a geometry
with identity 5.  It does store the geometry reference under `"Geometry"`,
but it copies the identity under the key `"GeometryID"` -- a key absent from
the schema -- while the schema-declared denormalized scalar `"GeometryId"`
is left unset, so the store's `GeometryId` entry does not equal the
geometry's ID as the claim requires. -/
theorem C8_setGeometry_eval :
    getV ((Analysis.setGeometry ⟨[], none⟩ ⟨Attr.numStr 5⟩).data) "Geometry" =
      some (AVal.geomRef ⟨Attr.numStr 5⟩) ∧
    getV ((Analysis.setGeometry ⟨[], none⟩ ⟨Attr.numStr 5⟩).data) "GeometryID" =
      some (AVal.attr (Attr.numStr 5)) ∧
    getV ((Analysis.setGeometry ⟨[], none⟩ ⟨Attr.numStr 5⟩).data) "GeometryId" =
      none ∧
    containsV Analysis.parameter_type "GeometryId" = true ∧
    containsV Analysis.parameter_type "GeometryID" = false := by
  refine ⟨?_, ?_, ?_, ?_, ?_⟩ <;> with_unfolding_all rfl

/-- Claim C9: `setContext` assigns the stray attribute `self.context`
instead of the `"Context"` entry of the property store, so `showProblem` on
an analysis with a geometry still raises the missing-collaborator `KeyError`
naming `Context` even after `setContext` was called -- the claimed iff
fails in the only-if direction. -/
theorem C9_showProblem_eval :
    (Analysis.setContext ⟨[("Geometry", AVal.geomRef ⟨Attr.numStr 5⟩)], none⟩
        CtxObj.mk).context = some CtxObj.mk ∧
    Analysis.showProblem
      (Analysis.setContext ⟨[("Geometry", AVal.geomRef ⟨Attr.numStr 5⟩)], none⟩
        CtxObj.mk) =
      .error "KeyError Analysis not properly defined. Context is not available in data." ∧
    getV (Analysis.setContext ⟨[("Geometry", AVal.geomRef ⟨Attr.numStr 5⟩)], none⟩
        CtxObj.mk).data "Context" = none := by
  refine ⟨?_, ?_, ?_⟩ <;> with_unfolding_all rfl

end PyGeoStudio
